import Mathlib

/-
  Verification of the duplicity boto S3 backend
  (src/duplicity/backends/botobackend.py) against its specification.

  The embedding models the path/namespace mapping done in
  BotoBackend.__init__, the calling-format selection, the lazy bucket
  provisioning in put, the shared retry loop of put/get, list, and
  delete.  Python strings are modelled as lists of characters so that
  str.split(sep) can be embedded exactly.
-/

namespace Boto

/-- Python strings, modelled character by character. -/
abbrev Str := List Char

/-- The path separator used throughout the backend. -/
def sep : Char := '/'

/-- Embeds Python str.split on a single separator character:
splitSep of the empty string is a list holding one empty string, and every
occurrence of the separator opens a new (possibly empty) segment, exactly as
parsed_url.path.split in BotoBackend.__init__ does. -/
def splitSep : Str → List Str
  | [] => [[]]
  | c :: rest =>
      if c = sep then [] :: splitSep rest
      else
        match splitSep rest with
        | [] => [[c]]
        | s :: ss => (c :: s) :: ss

/-- Embeds the Python expression joining segments with the separator,
as in the slash join of self.url_parts in BotoBackend.__init__. -/
def joinSep : List Str → Str
  | [] => []
  | [s] => s
  | s :: t :: rest => s ++ sep :: joinSep (t :: rest)

/-- Embeds self.url_parts in BotoBackend.__init__: split the URL path on
the separator and discard the empty segments. -/
def urlParts (path : Str) : List Str :=
  (splitSep path).filter (fun s => decide (s ≠ []))

/-- Errors the embedded code can surface.  BackendException is the
exception class the backend raises itself; AttributeError models a Python
attribute lookup that fails; FatalError models the fatal-error report of
the logging collaborator (which terminates the process); ServiceError
models an exception coming out of the underlying service library. -/
inductive Err where
  | BackendException (msg : String)
  | AttributeError (attr : String)
  | FatalError (msg : String)
  | ServiceError (msg : String)
  deriving DecidableEq

/-- Embeds the namespace mapping of BotoBackend.__init__ (the code after
the connection is set up): take the nonempty segments of the URL path; if
none remain raise BackendException, otherwise pop the first segment as the
bucket name and join the remaining ones with the separator, with one
trailing separator, as the key prefix (empty when no segment remains). -/
def namespaceMap (path : Str) : Except Err (Str × Str) :=
  match urlParts path with
  | [] => Except.error (Err.BackendException ("Boto requires a bucket name."))
  | b :: rest =>
      Except.ok (b, if rest = [] then [] else joinSep rest ++ [sep])

/-- Folding the duplicate and empty separators of a path: the path whose
segments are exactly the nonempty segments of the original, joined by
single separators.  This is the normal form the comment in
BotoBackend.__init__ describes when it says null parts are folded. -/
def foldPath (path : Str) : Str := joinSep (urlParts path)

theorem splitSep_ne_nil (p : Str) : splitSep p ≠ [] := by
  induction p with
  | nil => simp [splitSep]
  | cons c rest ih =>
      simp only [splitSep]
      by_cases h : c = sep
      · simp [h]
      · simp only [h, if_false]
        cases hr : splitSep rest with
        | nil => simp
        | cons s ss => simp

theorem sep_not_mem_splitSep (p : Str) :
    ∀ s ∈ splitSep p, sep ∉ s := by
  induction p with
  | nil =>
      intro s hs
      simp [splitSep] at hs
      simp [hs]
  | cons c rest ih =>
      intro s hs
      simp only [splitSep] at hs
      by_cases h : c = sep
      · simp only [h, if_true, List.mem_cons] at hs
        rcases hs with hs | hs
        · simp [hs]
        · exact ih s hs
      · simp only [h, if_false] at hs
        cases hr : splitSep rest with
        | nil => exact absurd hr (splitSep_ne_nil rest)
        | cons t ts =>
            rw [hr] at hs
            rcases List.mem_cons.mp hs with hs | hs
            · subst hs
              intro hmem
              rcases List.mem_cons.mp hmem with hc | hc
              · exact h hc.symm
              · exact ih t (hr ▸ List.mem_cons_self t ts) hc
            · exact ih s (hr ▸ List.mem_cons_of_mem t hs)

theorem splitSep_append (s p : Str) (hs : ∀ c ∈ s, c ≠ sep) :
    splitSep (s ++ p) = (s ++ (splitSep p).headI) :: (splitSep p).tail := by
  induction s with
  | nil =>
      simp only [List.nil_append]
      cases hp : splitSep p with
      | nil => exact absurd hp (splitSep_ne_nil p)
      | cons q qs => simp
  | cons c cs ih =>
      have hc : c ≠ sep := hs c (List.mem_cons_self c cs)
      have ih2 := ih (fun d hd => hs d (List.mem_cons_of_mem c hd))
      simp only [List.cons_append, splitSep, hc, if_false]
      rw [show cs.append p = cs ++ p from rfl, ih2]

theorem splitSep_sep_cons (p : Str) :
    splitSep (sep :: p) = [] :: splitSep p := by
  simp [splitSep]

theorem urlParts_joinSep :
    ∀ l : List Str, (∀ s ∈ l, s ≠ [] ∧ ∀ c ∈ s, c ≠ sep) →
      urlParts (joinSep l) = l := by
  intro l
  induction l with
  | nil => intro _; rfl
  | cons s rest ih =>
      intro hl
      have hs := hl s (List.mem_cons_self s rest)
      cases rest with
      | nil =>
          have h1 : joinSep [s] = s := rfl
          have h2 : splitSep (s ++ []) =
              (s ++ (splitSep []).headI) :: (splitSep []).tail :=
            splitSep_append s [] hs.2
          simp only [List.append_nil, splitSep, List.headI, List.tail] at h2
          simp only [h1, urlParts, h2, List.append_nil, List.filter]
          simp [hs.1]
      | cons t ts =>
          have hrest : ∀ u ∈ t :: ts, u ≠ [] ∧ ∀ c ∈ u, c ≠ sep :=
            fun u hu => hl u (List.mem_cons_of_mem s hu)
          have hj : joinSep (s :: t :: ts) = s ++ sep :: joinSep (t :: ts) := rfl
          have h2 : splitSep (s ++ sep :: joinSep (t :: ts)) =
              (s ++ (splitSep (sep :: joinSep (t :: ts))).headI) ::
                (splitSep (sep :: joinSep (t :: ts))).tail :=
            splitSep_append s _ hs.2
          rw [splitSep_sep_cons] at h2
          simp only [List.headI, List.tail, List.append_nil] at h2
          have ih2 := ih hrest
          simp only [urlParts] at ih2 ⊢
          rw [hj, h2, List.filter_cons, ih2]
          simp [hs.1]

theorem urlParts_foldPath (p : Str) : urlParts (foldPath p) = urlParts p := by
  have h : ∀ s ∈ urlParts p, s ≠ [] ∧ ∀ c ∈ s, c ≠ sep := by
    intro s hsmem
    have hmem : s ∈ splitSep p := List.mem_of_mem_filter hsmem
    have hne : s ≠ [] := by
      have := List.of_mem_filter hsmem
      simpa using this
    refine ⟨hne, ?_⟩
    intro c hc hcsep
    exact sep_not_mem_splitSep p s hmem (hcsep ▸ hc)
  exact urlParts_joinSep (urlParts p) h

/-- C3: the namespace mapping of BotoBackend.__init__ splits the URL path
on the separator, discards empty segments, takes the first remaining
segment as the bucket (container identifier), joins the remaining segments
with a single separator plus one trailing separator as the key prefix
(empty when none remain), and raises when no segment remains at all. -/
theorem c3_namespace_mapping (path : Str) :
    namespaceMap path =
      match (splitSep path).filter (fun s => decide (s ≠ [])) with
      | [] => Except.error (Err.BackendException ("Boto requires a bucket name."))
      | b :: rest =>
          Except.ok (b, if rest = [] then [] else joinSep rest ++ [sep]) := rfl

/-- C4: mapping a URL path and mapping its separator-folded form yield the
same (container, key-prefix) result, and in particular the example paths of
the specification map as stated. -/
theorem c4_fold_idempotent :
    (∀ p : Str, namespaceMap (foldPath p) = namespaceMap p) ∧
    namespaceMap ("//MyBucket/").data = namespaceMap ("//MyBucket").data ∧
    namespaceMap ("//MyBucket//My///Prefix/").data =
      namespaceMap ("//MyBucket/My/Prefix").data ∧
    namespaceMap ("//MyBucket").data =
      Except.ok (("MyBucket").data, []) ∧
    namespaceMap ("//MyBucket/My/Prefix").data =
      Except.ok (("MyBucket").data, ("My/Prefix/").data) := by
  refine ⟨?_, rfl, rfl, rfl, rfl⟩
  intro p
  unfold namespaceMap
  rw [urlParts_foldPath]

/-- Process-wide configuration the backend reads (duplicity.globals). -/
structure Globals where
  s3_use_new_style : Bool
  s3_european_buckets : Bool
  num_retries : Nat
  deriving DecidableEq

/-- The observable shape of one run of the retry loop shared by put and
get: how many attempts were performed, how many fixed 30-second delays
elapsed, and whether the loop returned successfully. -/
structure RetryTrace where
  attempts : Nat
  sleeps : Nat
  ok : Bool
  deriving DecidableEq

/-- Embeds the body of the for loop in BotoBackend.put and BotoBackend.get
over the remaining attempt numbers: each attempt either succeeds and
returns at once, or is swallowed, logged, and followed by one
time.sleep(30) before the next iteration; when the numbers run out the
loop falls through with no success. -/
def retryGo (outcome : Nat → Bool) : List Nat → RetryTrace
  | [] => ⟨0, 0, false⟩
  | n :: rest =>
      if outcome n then ⟨1, 0, true⟩
      else
        (fun t => ⟨t.attempts + 1, t.sleeps + 1, t.ok⟩) (retryGo outcome rest)

/-- Embeds range(1, num_retries + 1), the attempt numbers of the loops in
BotoBackend.put and BotoBackend.get. -/
def attemptIdxs (n : Nat) : List Nat := (List.range n).map (fun i => i + 1)

/-- One full run of the retry loop of BotoBackend.put / BotoBackend.get:
attempt numbers 1 .. num_retries, with outcome n telling whether the n-th
underlying transfer attempt succeeds. -/
def runRetries (outcome : Nat → Bool) (n : Nat) : RetryTrace :=
  retryGo outcome (attemptIdxs n)

/-- Embeds the whole transfer part of BotoBackend.put: the retry loop, and
the BackendException raised after the loop exhausts its attempts. -/
def putAttempts (g : Globals) (outcome : Nat → Bool) :
    RetryTrace × Except Err Unit :=
  (fun t => (t, if t.ok then Except.ok ()
                else Except.error (Err.BackendException ("Error uploading"))))
    (runRetries outcome g.num_retries)

/-- Embeds the whole transfer part of BotoBackend.get: the retry loop, and
the BackendException raised after the loop exhausts its attempts. -/
def getAttempts (g : Globals) (outcome : Nat → Bool) :
    RetryTrace × Except Err Unit :=
  (fun t => (t, if t.ok then Except.ok ()
                else Except.error (Err.BackendException ("Error downloading"))))
    (runRetries outcome g.num_retries)

theorem retryGo_all_fail (outcome : Nat → Bool) :
    ∀ l : List Nat, (∀ n ∈ l, outcome n = false) →
      retryGo outcome l = ⟨l.length, l.length, false⟩ := by
  intro l
  induction l with
  | nil => intro _; rfl
  | cons n rest ih =>
      intro h
      have hn : outcome n = false := h n (List.mem_cons_self n rest)
      have ih2 := ih (fun m hm => h m (List.mem_cons_of_mem n hm))
      simp [retryGo, hn, ih2, List.length_cons]

theorem retryGo_first_success (outcome : Nat → Bool) (k : Nat)
    (post : List Nat) (hk : outcome k = true) :
    ∀ l : List Nat, (∀ n ∈ l, outcome n = false) →
      retryGo outcome (l ++ k :: post) = ⟨l.length + 1, l.length, true⟩ := by
  intro l
  induction l with
  | nil =>
      intro _
      simp [retryGo, hk]
  | cons n rest ih =>
      intro h
      have hn : outcome n = false := h n (List.mem_cons_self n rest)
      have ih2 := ih (fun m hm => h m (List.mem_cons_of_mem n hm))
      simp [retryGo, hn, ih2, List.length_cons]

theorem mem_attemptIdxs (n N : Nat) : n ∈ attemptIdxs N ↔ 1 ≤ n ∧ n ≤ N := by
  simp only [attemptIdxs, List.mem_map, List.mem_range]
  constructor
  · rintro ⟨i, hi, rfl⟩
    omega
  · intro h
    exact ⟨n - 1, by omega, by omega⟩

theorem length_attemptIdxs (N : Nat) : (attemptIdxs N).length = N := by
  simp [attemptIdxs]

theorem attemptIdxs_split (k N : Nat) (h1 : 1 ≤ k) (h2 : k ≤ N) :
    attemptIdxs N =
      attemptIdxs (k - 1) ++ k :: ((List.range (N - k)).map (fun i => k + i + 1)) := by
  obtain ⟨m, rfl⟩ : ∃ m, k = m + 1 := ⟨k - 1, by omega⟩
  have h3 : N = (m + 1) + (N - (m + 1)) := by omega
  rw [attemptIdxs, h3, List.range_add, List.map_append, List.range_succ,
    List.map_append]
  simp only [attemptIdxs, Nat.add_sub_cancel, List.map_map, List.map_cons,
    List.cons_append, List.nil_append, List.append_assoc]
  have h4 : m + 1 + (N - (m + 1)) - (m + 1) = N - (m + 1) := by omega
  simp only [h4, List.map_nil, List.nil_append, Function.comp_def]

/-- C5: when the underlying transfer fails on attempts 1..k-1 and succeeds
on attempt k (1 <= k <= num_retries), both put and get perform exactly k
attempts, elapse k-1 delays, and return normally with no error. -/
theorem c5_success_at_k (g : Globals) (outcome : Nat → Bool) (k : Nat)
    (h1 : 1 ≤ k) (h2 : k ≤ g.num_retries)
    (hf : ∀ i, 1 ≤ i → i < k → outcome i = false)
    (hk : outcome k = true) :
    putAttempts g outcome = (⟨k, k - 1, true⟩, Except.ok ()) ∧
    getAttempts g outcome = (⟨k, k - 1, true⟩, Except.ok ()) := by
  have hsplit := attemptIdxs_split k g.num_retries h1 h2
  have hpre : ∀ n ∈ attemptIdxs (k - 1), outcome n = false := by
    intro n hn
    have := (mem_attemptIdxs n (k - 1)).mp hn
    exact hf n this.1 (by omega)
  have hrun : runRetries outcome g.num_retries = ⟨k, k - 1, true⟩ := by
    rw [runRetries, hsplit,
      retryGo_first_success outcome k _ hk (attemptIdxs (k - 1)) hpre,
      length_attemptIdxs]
    have : k - 1 + 1 = k := by omega
    rw [this]
  constructor
  · rw [putAttempts, hrun]
    rfl
  · rw [getAttempts, hrun]
    rfl

/-- Witness instantiating c5_success_at_k: three configured attempts,
success on the second. -/
theorem c5_success_witness :
    putAttempts ⟨false, false, 3⟩ (fun i => decide (i = 2)) =
      (⟨2, 1, true⟩, Except.ok ()) ∧
    getAttempts ⟨false, false, 3⟩ (fun i => decide (i = 2)) =
      (⟨2, 1, true⟩, Except.ok ()) :=
  c5_success_at_k ⟨false, false, 3⟩ (fun i => decide (i = 2)) 2
    (by decide) (by decide)
    (by
      intro i hi hlt
      have : i = 1 := by omega
      subst this
      decide)
    (by decide)

/-- C1 counterexample: with num_retries = 2 and every attempt failing, the
retry loop of put and get elapses 2 fixed delays, not num_retries - 1 = 1:
a delay also follows the final failed attempt, before the error is raised. -/
theorem c1_delay_cex :
    runRetries (fun _ => false) 2 = ⟨2, 2, false⟩ ∧
    (runRetries (fun _ => false) 2).sleeps ≠ 2 - 1 ∧
    putAttempts ⟨false, false, 2⟩ (fun _ => false) =
      (⟨2, 2, false⟩, Except.error (Err.BackendException ("Error uploading"))) := by
  refine ⟨rfl, by decide, rfl⟩

/-- C1 amended: when every attempt up to and including attempt
num_retries fails, put and get each perform exactly num_retries attempts,
elapse exactly num_retries delays (one after every failed attempt, the
last included), and then raise the transfer error exactly once. -/
theorem c1_exhaustion (g : Globals) (outcome : Nat → Bool)
    (hfail : ∀ i, 1 ≤ i → i ≤ g.num_retries → outcome i = false) :
    putAttempts g outcome =
      (⟨g.num_retries, g.num_retries, false⟩,
        Except.error (Err.BackendException ("Error uploading"))) ∧
    getAttempts g outcome =
      (⟨g.num_retries, g.num_retries, false⟩,
        Except.error (Err.BackendException ("Error downloading"))) := by
  have hall : ∀ n ∈ attemptIdxs g.num_retries, outcome n = false := by
    intro n hn
    have := (mem_attemptIdxs n g.num_retries).mp hn
    exact hfail n this.1 this.2
  have hrun : runRetries outcome g.num_retries =
      ⟨g.num_retries, g.num_retries, false⟩ := by
    rw [runRetries, retryGo_all_fail outcome _ hall, length_attemptIdxs]
  constructor
  · rw [putAttempts, hrun]
    rfl
  · rw [getAttempts, hrun]
    rfl

/-- Witness instantiating c1_exhaustion: two configured attempts, every
attempt failing. -/
theorem c1_exhaustion_witness :
    putAttempts ⟨false, false, 2⟩ (fun _ => false) =
      (⟨2, 2, false⟩, Except.error (Err.BackendException ("Error uploading"))) ∧
    getAttempts ⟨false, false, 2⟩ (fun _ => false) =
      (⟨2, 2, false⟩, Except.error (Err.BackendException ("Error downloading"))) :=
  c1_exhaustion ⟨false, false, 2⟩ (fun _ => false)
    (fun _ _ _ => rfl)

/-- One configured backend handle: the fields of BotoBackend that the
operations read or write after construction.  key_pre embeds
self.key_prefix; bucket embeds self.bucket, the cached result of
conn.lookup (None when the bucket does not exist), holding the bucket
name when present. -/
structure Handle where
  bucket_name : Str
  key_pre : Str
  bucket : Option Str
  deriving DecidableEq

/-- Modelled from the spec: the generic logging collaborator
(duplicity.log), whose source is not under src/.  Per sections 4.4 and 7
of the specification it offers leveled diagnostics and a fatal-error
report; the file itself calls log.Log and log.FatalError (the latter
twice, correctly spelled).  Any other attribute name is not defined on
the module, so looking it up raises AttributeError. -/
def logAttrs : List String := [("Log"), ("Warn"), ("FatalError")]

/-- Whether the logging module has an attribute of the given name. -/
def logHasAttr (a : String) : Bool := logAttrs.contains a

/-- The two calling formats the boto library can offer. -/
inductive CallingFormat where
  | Ordinary
  | Subdomain
  deriving DecidableEq

/-- Embeds the calling-format selection of BotoBackend.__init__:
cfs_supported records whether the two calling-format classes imported;
when the user asks for new-style addressing the subdomain format is
selected if supported, and otherwise the code invokes log.FataError -
an attribute the logging module does not have, so the lookup itself
raises - where the fatal unsupported-feature report was intended. -/
def selectCallingFormat (cfs_supported : Bool) (use_new_style : Bool) :
    Except Err (Option CallingFormat) :=
  if use_new_style then
    if cfs_supported then Except.ok (some CallingFormat.Subdomain)
    else if logHasAttr ("FataError") then
      Except.error (Err.FatalError ("Use of new-style (subdomain) S3 bucket addressing was requested, but does not seem to be supported"))
    else Except.error (Err.AttributeError ("FataError"))
  else
    if cfs_supported then Except.ok (some CallingFormat.Ordinary)
    else Except.ok none

/-- C8: requesting new-style (virtual-host) addressing when the boto
library offers no calling-format selection does not produce the intended
fatal unsupported-feature report: the code misspells the fatal-report
attribute as FataError, so the branch raises AttributeError instead.
The construction still fails before any network call, but with the wrong
error. -/
theorem c8_typo_eval :
    selectCallingFormat false true =
      Except.error (Err.AttributeError ("FataError")) ∧
    logHasAttr ("FataError") = false ∧
    logHasAttr ("FatalError") = true := by
  exact ⟨rfl, rfl, rfl⟩

/-- Where a bucket-creation request asks the service to place the bucket. -/
inductive BucketLocation where
  | usStandard
  | EU
  deriving DecidableEq

/-- Embeds the lazy bucket provisioning at the top of BotoBackend.put:
when the cached bucket is absent, a European placement together with
old-style addressing makes the code invoke log.LogFatal - an attribute
the logging module does not have, so the lookup raises - where the fatal
configuration report was intended; otherwise conn.create_bucket is called
(with Location.EU when European placement is configured).  The first
component records the creation requests issued. -/
def ensureBucket (g : Globals) (h : Handle) :
    List BucketLocation × Except Err Handle :=
  match h.bucket with
  | some _ => ([], Except.ok h)
  | none =>
      if g.s3_european_buckets then
        if g.s3_use_new_style then
          ([BucketLocation.EU],
            Except.ok ⟨h.bucket_name, h.key_pre, some h.bucket_name⟩)
        else if logHasAttr ("LogFatal") then
          ([], Except.error (Err.FatalError ("European bucket creation was requested, but not new-style bucket addressing")))
        else ([], Except.error (Err.AttributeError ("LogFatal")))
      else
        ([BucketLocation.usStandard],
          Except.ok ⟨h.bucket_name, h.key_pre, some h.bucket_name⟩)

/-- C9: with a European placement constraint configured and old-style
(path-style) addressing in use, the lazy provisioning step of put issues
no creation request, but it fails with AttributeError - the code invokes
the nonexistent log.LogFatal where the fatal configuration report was
intended. -/
theorem c9_typo_eval :
    ensureBucket ⟨false, true, 1⟩ ⟨("b").data, [], none⟩ =
      ([], Except.error (Err.AttributeError ("LogFatal"))) ∧
    logHasAttr ("LogFatal") = false ∧
    logHasAttr ("FatalError") = true := by
  exact ⟨rfl, rfl, rfl⟩

/-- Whether pat is an initial run of s (Python str.startswith; also the
way the service applies the request prefix to a key). -/
def hasLead : Str → Str → Bool
  | [], _ => true
  | _ :: _, [] => false
  | a :: as, b :: bs => a = b && hasLead as bs

/-- Position of the first occurrence of a character in a string. -/
def firstBreak (d : Char) : Str → Option Nat
  | [] => none
  | c :: rest => if c = d then some 0 else (firstBreak d rest).map (fun i => i + 1)

/-- Embeds Python str.replace(pat, empty, 1): remove the first occurrence
of pat from s, scanning left to right; this is what BotoBackend.list does
to strip self.key_prefix from each listed key. -/
def replaceFirstDrop (pat : Str) : Str → Str
  | [] => []
  | c :: rest =>
      if hasLead pat (c :: rest) then (c :: rest).drop pat.length
      else c :: replaceFirstDrop pat rest

/-- One entry yielded by the service-side listing: either a key object
(carrying a key attribute) or a rolled-up common-prefix object (carrying
none, so that reading .key on it raises AttributeError). -/
inductive ListEntry where
  | key (k : Str)
  | common (p : Str)
  deriving DecidableEq

/-- One service-side listing request as bucket.list issues it: the
request prefix and the optional delimiter. -/
structure ListReq where
  pre : Str
  delim : Option Char
  deriving DecidableEq

/-- Modelled from the boto/S3 listing API (an external collaborator of
this backend): the service considers exactly the keys that start with the
request prefix; with no delimiter each of them is yielded as a key entry;
with a delimiter, a key whose remainder after the prefix still contains
the delimiter is rolled up into a common-prefix entry ending at the first
delimiter (grouping of equal common prefixes is omitted here, since
common-prefix entries carry no key attribute and are skipped uniformly by
the caller). -/
def s3List (contents : List Str) (pre : Str) (delim : Option Char) :
    List ListEntry :=
  match delim with
  | none => (contents.filter (fun k => hasLead pre k)).map ListEntry.key
  | some d =>
      (contents.filter (fun k => hasLead pre k)).map (fun k =>
        match firstBreak d (k.drop pre.length) with
        | none => ListEntry.key k
        | some i => ListEntry.common (pre ++ (k.drop pre.length).take (i + 1)))

/-- Reading the key attribute of a listed entry and stripping the key
prefix from it, as the loop body of BotoBackend.list does; a common
entry has no key attribute, the AttributeError is caught and the entry
skipped. -/
def entryName (pre : Str) : ListEntry → Option Str
  | ListEntry.key k => some (replaceFirstDrop pre k)
  | ListEntry.common _ => none

/-- Embeds BotoBackend.list: with no cached bucket the filename list
stays empty and no listing request is issued; otherwise one listing
request scoped by self.key_prefix and delimited by the separator is
issued, and each yielded entry carrying a key contributes that key with
the prefix stripped, in order.  The first component records the listing
requests issued. -/
def listOp (h : Handle) (contents : List Str) : List ListReq × List Str :=
  match h.bucket with
  | none => ([], [])
  | some _ =>
      ([⟨h.key_pre, some sep⟩],
        (s3List contents h.key_pre (some sep)).filterMap (entryName h.key_pre))

/-- Embeds BotoBackend.delete: walk the filename list in order, deleting
the key-prefixed key of each name; fail tells which keys the service
fails to delete, and a failure propagates at once.  Components: the
filenames whose deletion was attempted, the filenames actually deleted,
and the result. -/
def deleteOp (h : Handle) (fail : Str → Bool) :
    List Str → List Str × List Str × Except Err Unit
  | [] => ([], [], Except.ok ())
  | f :: rest =>
      if fail (h.key_pre ++ f) then
        ([f], [], Except.error (Err.ServiceError ("delete_key")))
      else
        (fun r => (f :: r.1, f :: r.2.1, r.2.2)) (deleteOp h fail rest)

theorem replaceFirstDrop_of_lead (pat s : Str) (h : hasLead pat s = true) :
    replaceFirstDrop pat s = s.drop pat.length := by
  cases s with
  | nil =>
      cases pat with
      | nil => rfl
      | cons a as => simp [hasLead] at h
  | cons c rest => simp [replaceFirstDrop, h]

theorem firstBreak_eq_none (d : Char) :
    ∀ s : Str, firstBreak d s = none ↔ d ∉ s := by
  intro s
  induction s with
  | nil => simp [firstBreak]
  | cons c rest ih =>
      by_cases hc : c = d
      · simp [firstBreak, hc]
      · simp only [firstBreak, hc, if_false, List.mem_cons]
        rw [Option.map_eq_none']
        constructor
        · intro hn hmem
          rcases hmem with hmem | hmem
          · exact hc hmem.symm
          · exact (ih.mp hn) hmem
        · intro hn
          exact ih.mpr (fun hm => hn (Or.inr hm))

theorem filterMap_entryName (pre : Str) :
    ∀ contents : List Str,
      (s3List contents pre (some sep)).filterMap (entryName pre) =
      (contents.filter (fun k => hasLead pre k &&
          decide (sep ∉ k.drop pre.length))).map
        (fun k => k.drop pre.length) := by
  intro contents
  induction contents with
  | nil => rfl
  | cons k rest ih =>
      by_cases hk : hasLead pre k = true
      · by_cases hsep2 : sep ∈ k.drop pre.length
        · obtain ⟨i, hi⟩ : ∃ i, firstBreak sep (k.drop pre.length) = some i := by
            cases hfb : firstBreak sep (k.drop pre.length) with
            | none => exact absurd ((firstBreak_eq_none sep _).mp hfb) (by simp [hsep2])
            | some i => exact ⟨i, rfl⟩
          have hstep : s3List (k :: rest) pre (some sep) =
              ListEntry.common (pre ++ (k.drop pre.length).take (i + 1)) ::
                s3List rest pre (some sep) := by
            simp [s3List, List.filter_cons, hk, hi]
          rw [hstep, List.filterMap_cons, List.filter_cons]
          have hcond : (hasLead pre k && decide (sep ∉ k.drop pre.length)) = false := by
            simp [hk, hsep2]
          simp only [entryName, hcond, Bool.false_eq_true, if_false]
          exact ih
        · have hfb : firstBreak sep (k.drop pre.length) = none :=
            (firstBreak_eq_none sep _).mpr hsep2
          have hstep : s3List (k :: rest) pre (some sep) =
              ListEntry.key k :: s3List rest pre (some sep) := by
            simp [s3List, List.filter_cons, hk, hfb]
          rw [hstep, List.filterMap_cons, List.filter_cons]
          have hcond : (hasLead pre k && decide (sep ∉ k.drop pre.length)) = true := by
            simp [hk, hsep2]
          simp only [entryName, hcond, if_true, List.map_cons]
          rw [replaceFirstDrop_of_lead pre k hk, ih]
      · have hstep : s3List (k :: rest) pre (some sep) = s3List rest pre (some sep) := by
          simp [s3List, List.filter_cons, hk]
        rw [hstep, List.filter_cons]
        have hcond : (hasLead pre k && decide (sep ∉ k.drop pre.length)) = false := by
          simp [hk]
        simp only [hcond, Bool.false_eq_true, if_false]
        exact ih

/-- C2 counterexample: a key that starts with the configured key prefix
but lies deeper than one level is absent from the result of list, and the
single service-side request list issues carries the separator as a
delimiter rather than no delimiter at all. -/
theorem c2_delimiter_cex :
    hasLead ("p/").data ("p/a/b").data = true ∧
    listOp ⟨("b").data, ("p/").data, some (("b").data)⟩ [("p/a/b").data] =
      ([⟨("p/").data, some sep⟩], []) := by
  exact ⟨rfl, rfl⟩

/-- C2 amended: for an existing container, list issues exactly one
service-side request, scoped by the configured key prefix and delimited
by the separator; consequently the result holds, in listing order, the
prefix-stripped names of exactly those keys that start with the prefix
and contain no further separator after it - deeper keys are rolled up
into common-prefix entries that carry no key and are skipped. -/
theorem c2_delimited_walk (h : Handle) (b : Str) (contents : List Str)
    (hb : h.bucket = some b) :
    (listOp h contents).1 = [⟨h.key_pre, some sep⟩] ∧
    (listOp h contents).2 =
      (contents.filter (fun k => hasLead h.key_pre k &&
          decide (sep ∉ k.drop h.key_pre.length))).map
        (fun k => k.drop h.key_pre.length) := by
  constructor
  · simp [listOp, hb]
  · simp only [listOp, hb]
    exact filterMap_entryName h.key_pre contents

/-- Witness instantiating c2_delimited_walk on a concrete handle whose
bucket holds one shallow and one deep key. -/
theorem c2_delimited_walk_witness :
    (listOp ⟨("b").data, ("p/").data, some (("b").data)⟩
        [("p/a").data, ("p/a/b").data, ("q").data]).1 =
      [⟨("p/").data, some sep⟩] ∧
    (listOp ⟨("b").data, ("p/").data, some (("b").data)⟩
        [("p/a").data, ("p/a/b").data, ("q").data]).2 =
      ([("p/a").data, ("p/a/b").data, ("q").data].filter
          (fun k => hasLead ("p/").data k &&
            decide (sep ∉ k.drop ("p/").data.length))).map
        (fun k => k.drop ("p/").data.length) :=
  c2_delimited_walk ⟨("b").data, ("p/").data, some (("b").data)⟩
    (("b").data) [("p/a").data, ("p/a/b").data, ("q").data] rfl

/-- C6: when the cached container lookup resolved to nothing, list
returns the empty sequence, issues no service-side listing request, and
can raise nothing, since it performs no call at all. -/
theorem c6_missing_bucket (h : Handle) (contents : List Str)
    (hb : h.bucket = none) : listOp h contents = ([], []) := by
  simp [listOp, hb]

/-- Witness instantiating c6_missing_bucket. -/
theorem c6_missing_bucket_witness :
    listOp ⟨("b").data, ("p/").data, none⟩ [("p/a").data] = ([], []) :=
  c6_missing_bucket ⟨("b").data, ("p/").data, none⟩ [("p/a").data] rfl

/-- C7: when deleting the key of a filename fails, delete raises at once:
the filenames before the failure point were deleted, the failing one was
attempted, and none after it is attempted. -/
theorem c7_delete_stops (h : Handle) (fail : Str → Bool)
    (before : List Str) (f : Str) (post : List Str)
    (hok : ∀ g2 ∈ before, fail (h.key_pre ++ g2) = false)
    (hf : fail (h.key_pre ++ f) = true) :
    deleteOp h fail (before ++ f :: post) =
      (before ++ [f], before, Except.error (Err.ServiceError ("delete_key"))) := by
  induction before with
  | nil => simp [deleteOp, hf]
  | cons b bs ih =>
      have hb := hok b (List.mem_cons_self b bs)
      have ih2 := ih (fun u hu => hok u (List.mem_cons_of_mem b hu))
      simp [deleteOp, hb, ih2]

/-- Witness instantiating c7_delete_stops: deletion of the second of
three filenames fails. -/
theorem c7_delete_stops_witness :
    deleteOp ⟨("b").data, ("p/").data, some (("b").data)⟩
        (fun k => decide (k = ("p/x").data))
        ([("a").data] ++ ("x").data :: [("c").data]) =
      ([("a").data] ++ [("x").data], [("a").data],
        Except.error (Err.ServiceError ("delete_key"))) :=
  c7_delete_stops ⟨("b").data, ("p/").data, some (("b").data)⟩
    (fun k => decide (k = ("p/x").data))
    [("a").data] (("x").data) [("c").data]
    (by
      intro g2 hg2
      have : g2 = ("a").data := by simpa using hg2
      subst this
      decide)
    (by decide)

/-- The four outward operations of the backend, with the inputs each one
reads: put and get carry the per-attempt outcome of the underlying
transfer, delete carries the filenames and which keys fail. -/
inductive Op where
  | put (outcome : Nat → Bool)
  | get (outcome : Nat → Bool)
  | listing
  | delete (fail : Str → Bool) (files : List Str)

/-- Whether an operation is a put. -/
def Op.isPut : Op → Bool
  | Op.put _ => true
  | _ => false

/-- The handle state after one operation: put runs the lazy provisioning
of ensureBucket first and is the only operation that assigns any handle
field (self.bucket, when creation succeeds); get, list and delete assign
nothing. -/
def stepBucket (g : Globals) (h : Handle) : Op → Handle
  | Op.put _ =>
      match (ensureBucket g h).2 with
      | Except.ok h2 => h2
      | Except.error _ => h
  | Op.get _ => h
  | Op.listing => h
  | Op.delete _ _ => h

/-- The handle state after a sequence of operations. -/
def runOps (g : Globals) (h : Handle) (ops : List Op) : Handle :=
  ops.foldl (stepBucket g) h

theorem stepBucket_frame (g : Globals) (h : Handle) (op : Op) :
    (stepBucket g h op).bucket_name = h.bucket_name ∧
    (stepBucket g h op).key_pre = h.key_pre ∧
    (∀ b, h.bucket = some b → (stepBucket g h op).bucket = some b) ∧
    (op.isPut = false → stepBucket g h op = h) := by
  cases op with
  | put outcome =>
      refine ⟨?_, ?_, ?_, ?_⟩
      · simp only [stepBucket, ensureBucket]
        cases hb : h.bucket with
        | some b => simp
        | none =>
            by_cases he : g.s3_european_buckets
            · by_cases hn : g.s3_use_new_style
              · simp [he, hn]
              · simp [he, hn, logHasAttr, logAttrs]
            · simp [he]
      · simp only [stepBucket, ensureBucket]
        cases hb : h.bucket with
        | some b => simp
        | none =>
            by_cases he : g.s3_european_buckets
            · by_cases hn : g.s3_use_new_style
              · simp [he, hn]
              · simp [he, hn, logHasAttr, logAttrs]
            · simp [he]
      · intro b hb
        simp [stepBucket, ensureBucket, hb]
      · intro hfalse
        simp [Op.isPut] at hfalse
  | get outcome => exact ⟨rfl, rfl, fun b hb => hb, fun _ => rfl⟩
  | listing => exact ⟨rfl, rfl, fun b hb => hb, fun _ => rfl⟩
  | delete fail files => exact ⟨rfl, rfl, fun b hb => hb, fun _ => rfl⟩

/-- C10: over any sequence of put, get, list and delete operations the
bucket name and the key prefix of the handle never change; a cached
bucket, once present, is never changed or dropped (so only put can change
the handle, and only by filling an absent bucket); and a sequence with no
put leaves the handle exactly as it was. -/
theorem c10_frame (g : Globals) (h : Handle) (ops : List Op) :
    (runOps g h ops).bucket_name = h.bucket_name ∧
    (runOps g h ops).key_pre = h.key_pre ∧
    (∀ b, h.bucket = some b → (runOps g h ops).bucket = some b) ∧
    ((∀ op ∈ ops, op.isPut = false) → runOps g h ops = h) := by
  induction ops generalizing h with
  | nil => exact ⟨rfl, rfl, fun b hb => hb, fun _ => rfl⟩
  | cons op rest ih =>
      have hstep := stepBucket_frame g h op
      have hrun : runOps g h (op :: rest) = runOps g (stepBucket g h op) rest := rfl
      have ih2 := ih (stepBucket g h op)
      refine ⟨?_, ?_, ?_, ?_⟩
      · rw [hrun, ih2.1, hstep.1]
      · rw [hrun, ih2.2.1, hstep.2.1]
      · intro b hb
        rw [hrun]
        exact ih2.2.2.1 b (hstep.2.2.1 b hb)
      · intro hnone
        have hop : op.isPut = false := hnone op (List.mem_cons_self op rest)
        have hrest : ∀ o ∈ rest, o.isPut = false :=
          fun o ho => hnone o (List.mem_cons_of_mem op ho)
        rw [hrun, hstep.2.2.2 hop]
        exact (ih h).2.2.2 hrest

/-- Witness instantiating c10_frame: one put on a handle with a cached
bucket, then a get, a list and a delete, leave every field as it was. -/
theorem c10_frame_witness :
    (runOps ⟨false, false, 1⟩ ⟨("b").data, ("p/").data, some (("b").data)⟩
        [Op.put (fun _ => true), Op.get (fun _ => true), Op.listing,
          Op.delete (fun _ => false) []]).bucket_name = ("b").data ∧
    (runOps ⟨false, false, 1⟩ ⟨("b").data, ("p/").data, some (("b").data)⟩
        [Op.put (fun _ => true), Op.get (fun _ => true), Op.listing,
          Op.delete (fun _ => false) []]).key_pre = ("p/").data ∧
    (runOps ⟨false, false, 1⟩ ⟨("b").data, ("p/").data, some (("b").data)⟩
        [Op.put (fun _ => true), Op.get (fun _ => true), Op.listing,
          Op.delete (fun _ => false) []]).bucket = some (("b").data) := by
  have hc := c10_frame ⟨false, false, 1⟩
    ⟨("b").data, ("p/").data, some (("b").data)⟩
    [Op.put (fun _ => true), Op.get (fun _ => true), Op.listing,
      Op.delete (fun _ => false) []]
  exact ⟨hc.1, hc.2.1, hc.2.2.1 (("b").data) rfl⟩

end Boto
